import Mathlib

/-!
Verification of the gomigration library (openframebox/gomigration).

The SQLite driver (`SqliteDriver` and its methods) is embedded from the
source file that defines it.  The database is modelled as the list of
rows of the migration tracking table; failures of the underlying SQL
connection are modelled by an environment of error oracles, one per kind
of statement the driver issues.  Callback invocations (`onRunning`,
`onSuccess`, `onFailed`) are recorded as an event trace.

The orchestration engine (`GoMigration` with `Register`, `Migrate`,
`Reset`, `Rollback`) is not among the provided source files — only its
tests and the CLI caller are — so those operations are modelled from the
spec, as marked on each definition.
-/

namespace GoMig

/-- A migration, as in the `Migration` interface: a name, an up script
and a down script. -/
structure Migration where
  name : String
  up : String
  down : String
deriving Repr, DecidableEq

/-- A row of the migration tracking table, as in `ExecutedMigration`:
the migration name and the time it was executed (modelled as a `Nat`). -/
structure ExecutedMigration where
  name : String
  executedAt : Nat
deriving Repr, DecidableEq

/-- The failure environment of the database connection: for each kind of
statement the SQLite driver issues, an oracle saying whether the
statement fails (`some errorMessage`) or succeeds (`none`).  `execErr`
is keyed by the SQL text of a migration script, `insertErr` and
`removeErr` by the migration name the statement targets. -/
structure Env where
  execErr : String → Option String
  insertErr : String → Option String
  removeErr : String → Option String

/-- `SqliteDriver.executeMigrationSQL`: runs a raw SQL migration script;
returns immediately with no error (and without touching the database)
when the script is the empty string. -/
def executeMigrationSQL (env : Env) (sql : String) : Option String :=
  if sql = "" then none else env.execErr sql

/-- Effect on the tracking table of `SqliteDriver.insertExecutedMigration`:
`INSERT INTO <table> (name, executed_at) VALUES (?, ?)` appends one row. -/
def insertExecutedMigration (recs : List ExecutedMigration) (name : String)
    (t : Nat) : List ExecutedMigration :=
  recs ++ [⟨name, t⟩]

/-- Effect on the tracking table of `SqliteDriver.removeExecutedMigration`:
`DELETE FROM <table> WHERE name = ?` deletes every row with that name. -/
def removeExecutedMigration (recs : List ExecutedMigration) (name : String) :
    List ExecutedMigration :=
  recs.filter (fun r => r.name ≠ name)

/-- One callback invocation made by `ApplyMigrations` or
`UnapplyMigrations`: `running m` stands for `onRunning(&m)`, `success m`
for `onSuccess(&m)` and `failed m e` for `onFailed(&m, e)`. -/
inductive Event where
  | running (m : Migration)
  | success (m : Migration)
  | failed (m : Migration) (err : String)
deriving Repr, DecidableEq

/-- Result of a batch apply/unapply call: the callback trace, the final
state of the tracking table, and the returned error (if any). -/
structure BatchResult where
  events : List Event
  records : List ExecutedMigration
  err : Option String
deriving Repr, DecidableEq

/-- `SqliteDriver.ApplyMigrations`: for each migration in order, invoke
`onRunning`, execute the up script, record the migration, and invoke
`onSuccess`; on the first failure invoke `onFailed`, stop, and return an
error wrapping the migration name and the cause.  All timestamps are
modelled by the single value `now`. -/
def applyMigrations (env : Env) (now : Nat) :
    List Migration → List ExecutedMigration → BatchResult
  | [], recs => ⟨[], recs, none⟩
  | m :: rest, recs =>
    match executeMigrationSQL env m.up with
    | some e =>
      ⟨[Event.running m, Event.failed m e], recs,
        some ("failed to apply migration " ++ m.name ++ ": " ++ e)⟩
    | none =>
      match env.insertErr m.name with
      | some e =>
        ⟨[Event.running m, Event.failed m e], recs,
          some ("failed to record migration " ++ m.name ++ ": " ++ e)⟩
      | none =>
        let r := applyMigrations env now rest
          (insertExecutedMigration recs m.name now)
        ⟨Event.running m :: Event.success m :: r.events, r.records, r.err⟩

/-- `SqliteDriver.UnapplyMigrations`: for each migration in order, invoke
`onRunning`, execute the down script, remove the tracking record, and
invoke `onSuccess`; on the first failure invoke `onFailed`, stop, and
return an error wrapping the migration name and the cause. -/
def unapplyMigrations (env : Env) :
    List Migration → List ExecutedMigration → BatchResult
  | [], recs => ⟨[], recs, none⟩
  | m :: rest, recs =>
    match executeMigrationSQL env m.down with
    | some e =>
      ⟨[Event.running m, Event.failed m e], recs,
        some ("failed to unapply migration " ++ m.name ++ ": " ++ e)⟩
    | none =>
      match env.removeErr m.name with
      | some e =>
        ⟨[Event.running m, Event.failed m e], recs,
          some ("failed to remove migration record " ++ m.name ++ ": " ++ e)⟩
      | none =>
        let r := unapplyMigrations env rest
          (removeExecutedMigration recs m.name)
        ⟨Event.running m :: Event.success m :: r.events, r.records, r.err⟩

/-- The combined outcome of processing one migration inside
`ApplyMigrations`: the error of its up-script execution, or else the
error of recording it, or `none` when both steps succeed.  Exactly the
branch structure of the loop body. -/
def applyOutcome (env : Env) (m : Migration) : Option String :=
  match executeMigrationSQL env m.up with
  | some e => some e
  | none => env.insertErr m.name

/-- The combined outcome of processing one migration inside
`UnapplyMigrations`: the error of its down-script execution, or else the
error of removing its record, or `none` when both steps succeed. -/
def unapplyOutcome (env : Env) (m : Migration) : Option String :=
  match executeMigrationSQL env m.down with
  | some e => some e
  | none => env.removeErr m.name

/-- `SqliteDriver.SetMigrationTableName`: the new value of the
`migrationTableName` field; the empty string resets to the default
`"migrations"`.  Total — the method has no error path. -/
def setMigrationTableName (name : String) : String :=
  if name = "" then ("migrations") else name

/-- Ascending name order on tracking-table rows, the `ORDER BY name ASC`
of `GetExecutedMigrations`. -/
def execLe (a b : ExecutedMigration) : Prop := a.name ≤ b.name

/-- Descending name order on tracking-table rows, the `ORDER BY name DESC`
of `GetExecutedMigrations`. -/
def execGe (a b : ExecutedMigration) : Prop := b.name ≤ a.name

instance : DecidableRel execLe :=
  fun a b => inferInstanceAs (Decidable (a.name ≤ b.name))

instance : DecidableRel execGe :=
  fun a b => inferInstanceAs (Decidable (b.name ≤ a.name))

instance : IsTotal ExecutedMigration execLe := ⟨fun a b => le_total a.name b.name⟩

instance : IsTotal ExecutedMigration execGe := ⟨fun a b => le_total b.name a.name⟩

instance : IsTrans ExecutedMigration execLe := ⟨fun _ _ _ h h' => le_trans h h'⟩

instance : IsTrans ExecutedMigration execGe := ⟨fun _ _ _ h h' => le_trans h' h⟩

/-- `SqliteDriver.GetExecutedMigrations`: returns the rows of the
tracking table ordered by name, ascending, or descending when `reverse`
is true. -/
def getExecutedMigrations (recs : List ExecutedMigration) (reverse : Bool) :
    List ExecutedMigration :=
  if reverse then List.insertionSort execGe recs else List.insertionSort execLe recs

/-- Ascending name order on migrations, the order in which the engine
applies pending migrations. -/
def nameLe (a b : Migration) : Prop := a.name ≤ b.name

instance : DecidableRel nameLe :=
  fun a b => inferInstanceAs (Decidable (a.name ≤ b.name))

instance : IsTotal Migration nameLe := ⟨fun a b => le_total a.name b.name⟩

instance : IsTrans Migration nameLe := ⟨fun _ _ _ h h' => le_trans h h'⟩

/-- Modelled from the spec: the orchestration engine's in-memory registry
(`gomigration.go` is not under src/; only its tests and CLI callers are).
The mapping name → Migration is modelled as the list of registered
migrations. -/
def Registry := List Migration

/-- Modelled from the spec: `Register` of the orchestration engine
(absent from src/).  Adds the given migrations to the registry; fails
with a duplicate-name error if any of their names is already present,
checked before any are added, so on failure the registry is returned
unchanged (the call is atomic). -/
def register (reg : List Migration) (batch : List Migration) :
    List Migration × Option String :=
  match batch.find? (fun m => reg.any (fun r => r.name == m.name)) with
  | some m =>
    (reg, some ("migration " ++ m.name ++ " is registered more than once"))
  | none => (reg ++ batch, none)

/-- Modelled from the spec: the pending-set computation of `Migrate`
(absent from src/): the registered migrations sorted ascending by name,
keeping those whose name is not among the executed records. -/
def pendingMigrations (reg : List Migration)
    (executed : List ExecutedMigration) : List Migration :=
  (List.insertionSort nameLe reg).filter
    (fun m => ¬ executed.any (fun r => r.name == m.name))

/-- Modelled from the spec: `Migrate` of the orchestration engine
(absent from src/), at the granularity of the apply request it makes:
computes the pending set and requests `ApplyMigrations` on it, or makes
no apply request (`none`) and returns nil when the pending set is empty.
Tracking-table creation and the executed fetch are reflected by the
`executed` argument. -/
def migrate (reg : List Migration) (executed : List ExecutedMigration) :
    Option (List Migration) :=
  let pending := pendingMigrations reg executed
  if pending.isEmpty then none else some pending

/-- Modelled from the spec: the registry lookup used by `Rollback` and
`Reset` (absent from src/) to find the migration holding the down script
for an executed record's name. -/
def lookupMigration (reg : List Migration) (name : String) : Option Migration :=
  reg.find? (fun m => m.name == name)

/-- Modelled from the spec: resolving a list of executed-record names to
their registered migrations; `none` (a fatal lookup error) as soon as a
name has no registered migration. -/
def resolveMigrations (reg : List Migration) : List String → Option (List Migration)
  | [] => some []
  | n :: ns =>
    match lookupMigration reg n, resolveMigrations reg ns with
    | some m, some ms => some (m :: ms)
    | _, _ => none

/-- One engine-level action taken by `Reset`: an `UnapplyMigrations`
request on a batch, or a re-run of `Migrate`. -/
inductive EngineStep where
  | unapplyBatch (batch : List Migration)
  | runMigrate
deriving Repr, DecidableEq

/-- Modelled from the spec: `Reset` of the orchestration engine (absent
from src/): fetches the executed migrations descending, unapplies all of
them in that order (skipping the unapply request when none are
executed), then re-runs `Migrate`.  A record whose name is not
registered is a fatal lookup error. -/
def reset (reg : List Migration) (executed : List ExecutedMigration) :
    Except String (List EngineStep) :=
  let descNames := (getExecutedMigrations executed true).map (fun r => r.name)
  if descNames.isEmpty then Except.ok [EngineStep.runMigrate]
  else
    match resolveMigrations reg descNames with
    | none => Except.error ("migration not found in registry")
    | some batch => Except.ok [EngineStep.unapplyBatch batch, EngineStep.runMigrate]

/-- Modelled from the spec: `Rollback` of the orchestration engine
(absent from src/): requires `steps ≥ 1`, fetches the executed
migrations descending, takes at most `steps` of them (clamped to however
many exist) and unapplies exactly that prefix; a record whose name is
not registered is a fatal lookup error. -/
def rollback (reg : List Migration) (executed : List ExecutedMigration)
    (steps : Nat) : Except String (List Migration) :=
  if steps < 1 then Except.error ("steps must be at least 1")
  else
    let target := (getExecutedMigrations executed true).take steps
    match resolveMigrations reg (target.map (fun r => r.name)) with
    | none => Except.error ("migration not found in registry")
    | some batch => Except.ok batch

/-- The SQLite database as seen by `CleanDatabase`: the names of all
tables (user-defined and internal) and whether foreign-key enforcement
is on. -/
structure Db where
  tables : List String
  fkEnabled : Bool
deriving Repr, DecidableEq

/-- One SQL statement issued by `CleanDatabase`: the `PRAGMA
foreign_keys` toggles, the `sqlite_master` query, and a `DROP TABLE IF
EXISTS` per table. -/
inductive SqlOp where
  | setFk (enabled : Bool)
  | queryTables
  | dropTable (name : String)
deriving Repr, DecidableEq

/-- A SQLite-internal table, excluded by `name NOT LIKE 'sqlite_%'` in
the `CleanDatabase` table query. -/
def isInternalTable (t : String) : Bool := String.startsWith t ("sqlite_")

/-- `SqliteDriver.CleanDatabase`: disables foreign-key checks, queries
the user-defined table names, drops each of them in a loop (re-enabling
foreign-key checks and returning early when there are none), then
re-enables foreign-key checks.  Returns the statements issued and the
resulting database. -/
def cleanDatabase (db : Db) : List SqlOp × Db :=
  let userTables := db.tables.filter (fun t => ¬ isInternalTable t)
  if userTables.isEmpty then
    ([SqlOp.setFk false, SqlOp.queryTables, SqlOp.setFk true],
      { db with fkEnabled := true })
  else
    ([SqlOp.setFk false, SqlOp.queryTables]
        ++ userTables.map SqlOp.dropTable ++ [SqlOp.setFk true],
      { tables := userTables.foldl (fun ts n => ts.filter (fun t => t ≠ n)) db.tables,
        fkEnabled := true })

/-- The callback contract of a batch apply/unapply call, with `outcome`
giving each migration's failure (`some e`) or success (`none`): the
migrations are processed in the given order; for each processed
migration `onRunning` is invoked before its scripts run, followed by
exactly one of `onSuccess` (when its outcome is success) or `onFailed`
(when its outcome is a failure), after which the batch stops. -/
inductive BatchTrace (outcome : Migration → Option String) :
    List Migration → List Event → Prop
  | nil : BatchTrace outcome [] []
  | ok {m : Migration} {rest : List Migration} {evs : List Event} :
      outcome m = none → BatchTrace outcome rest evs →
      BatchTrace outcome (m :: rest) (Event.running m :: Event.success m :: evs)
  | fail {m : Migration} {rest : List Migration} {e : String} :
      outcome m = some e →
      BatchTrace outcome (m :: rest) [Event.running m, Event.failed m e]

lemma applyOutcome_eq_none {env : Env} {m : Migration} :
    applyOutcome env m = none ↔
      executeMigrationSQL env m.up = none ∧ env.insertErr m.name = none := by
  unfold applyOutcome
  cases h : executeMigrationSQL env m.up <;> simp

/-- Claim C9: `SetMigrationTableName` always succeeds; the empty string
sets the tracking table name to the default `"migrations"`, and any
other string is taken verbatim. -/
theorem setMigrationTableName_total_default (name : String) (h : name ≠ "") :
    setMigrationTableName ("") = "migrations" ∧
    setMigrationTableName name = name := by
  refine ⟨rfl, ?_⟩
  simp [setMigrationTableName, h]

theorem setMigrationTableName_total_default_witness :
    setMigrationTableName ("") = "migrations" ∧
    setMigrationTableName ("custom_migrations") = ("custom_migrations") :=
  setMigrationTableName_total_default ("custom_migrations") (by decide)

/-- Claim C10: a migration whose up (resp. down) script is the empty
string causes no SQL execution — `executeMigrationSQL` returns nil
immediately, whatever the connection would do — yet the tracking-table
mutation is still performed, so the migration is recorded (resp. its
record removed). -/
theorem empty_script_executes_no_sql (env : Env) (now : Nat) (m : Migration)
    (recs : List ExecutedMigration)
    (hup : m.up = "") (hdown : m.down = "")
    (hins : env.insertErr m.name = none) (hrem : env.removeErr m.name = none) :
    executeMigrationSQL env ("") = none ∧
    applyMigrations env now [m] recs =
      ⟨[Event.running m, Event.success m],
        insertExecutedMigration recs m.name now, none⟩ ∧
    unapplyMigrations env [m] recs =
      ⟨[Event.running m, Event.success m],
        removeExecutedMigration recs m.name, none⟩ := by
  refine ⟨rfl, ?_, ?_⟩ <;>
    simp [applyMigrations, unapplyMigrations, executeMigrationSQL,
      hup, hdown, hins, hrem]

theorem empty_script_executes_no_sql_witness :
    executeMigrationSQL ⟨fun _ => some ("boom"), fun _ => none, fun _ => none⟩ ("") = none ∧
    applyMigrations ⟨fun _ => some ("boom"), fun _ => none, fun _ => none⟩ 7
        [⟨"001_a", "", ""⟩] [] =
      ⟨[Event.running ⟨"001_a", "", ""⟩, Event.success ⟨"001_a", "", ""⟩],
        insertExecutedMigration [] "001_a" 7, none⟩ ∧
    unapplyMigrations ⟨fun _ => some ("boom"), fun _ => none, fun _ => none⟩
        [⟨"001_a", "", ""⟩] [] =
      ⟨[Event.running ⟨"001_a", "", ""⟩, Event.success ⟨"001_a", "", ""⟩],
        removeExecutedMigration [] "001_a", none⟩ :=
  empty_script_executes_no_sql ⟨fun _ => some ("boom"), fun _ => none, fun _ => none⟩
    7 ⟨"001_a", "", ""⟩ [] rfl rfl rfl rfl

/-- Claim C6: applying a migration and then unapplying it, both calls
succeeding, leaves the executed-record set exactly as it was before,
provided the migration's name was not already recorded: no orphan and no
duplicate record remains. -/
theorem apply_then_unapply_restores_records (env : Env) (now : Nat)
    (m : Migration) (E : List ExecutedMigration)
    (hE : ∀ r ∈ E, r.name ≠ m.name)
    (hup : executeMigrationSQL env m.up = none)
    (hins : env.insertErr m.name = none)
    (hdown : executeMigrationSQL env m.down = none)
    (hrem : env.removeErr m.name = none) :
    (applyMigrations env now [m] E).err = none ∧
    (unapplyMigrations env [m] (applyMigrations env now [m] E).records).err = none ∧
    (unapplyMigrations env [m] (applyMigrations env now [m] E).records).records = E := by
  have happ : applyMigrations env now [m] E =
      ⟨[Event.running m, Event.success m], E ++ [⟨m.name, now⟩], none⟩ := by
    simp [applyMigrations, hup, hins, insertExecutedMigration]
  rw [happ]
  have hun : unapplyMigrations env [m] (E ++ [⟨m.name, now⟩]) =
      ⟨[Event.running m, Event.success m],
        removeExecutedMigration (E ++ [⟨m.name, now⟩]) m.name, none⟩ := by
    simp [unapplyMigrations, hdown, hrem]
  rw [hun]
  refine ⟨rfl, rfl, ?_⟩
  unfold removeExecutedMigration
  rw [List.filter_append]
  have h1 : E.filter (fun r => r.name ≠ m.name) = E :=
    List.filter_eq_self.mpr (fun r hr => by simpa using hE r hr)
  have h2 : ([(⟨m.name, now⟩ : ExecutedMigration)].filter
      (fun r => r.name ≠ m.name)) = [] := by simp
  rw [h1, h2, List.append_nil]

theorem apply_then_unapply_restores_records_witness :
    (applyMigrations ⟨fun _ => none, fun _ => none, fun _ => none⟩ 3
        [⟨"002_b", "u", "d"⟩] [⟨"001_a", 1⟩]).err = none ∧
    (unapplyMigrations ⟨fun _ => none, fun _ => none, fun _ => none⟩
        [⟨"002_b", "u", "d"⟩]
        (applyMigrations ⟨fun _ => none, fun _ => none, fun _ => none⟩ 3
          [⟨"002_b", "u", "d"⟩] [⟨"001_a", 1⟩]).records).err = none ∧
    (unapplyMigrations ⟨fun _ => none, fun _ => none, fun _ => none⟩
        [⟨"002_b", "u", "d"⟩]
        (applyMigrations ⟨fun _ => none, fun _ => none, fun _ => none⟩ 3
          [⟨"002_b", "u", "d"⟩] [⟨"001_a", 1⟩]).records).records = [⟨"001_a", 1⟩] :=
  apply_then_unapply_restores_records ⟨fun _ => none, fun _ => none, fun _ => none⟩
    3 ⟨"002_b", "u", "d"⟩ [⟨"001_a", 1⟩] (by decide) rfl rfl rfl rfl

lemma applyMigrations_batchTrace (env : Env) (now : Nat) :
    ∀ (ms : List Migration) (recs : List ExecutedMigration),
      BatchTrace (applyOutcome env) ms (applyMigrations env now ms recs).events
  | [], recs => BatchTrace.nil
  | m :: rest, recs => by
    cases hx : executeMigrationSQL env m.up with
    | some e =>
      have ho : applyOutcome env m = some e := by simp [applyOutcome, hx]
      simpa [applyMigrations, hx] using @BatchTrace.fail (applyOutcome env) m rest e ho
    | none =>
      cases hi : env.insertErr m.name with
      | some e =>
        have ho : applyOutcome env m = some e := by simp [applyOutcome, hx, hi]
        simpa [applyMigrations, hx, hi] using @BatchTrace.fail (applyOutcome env) m rest e ho
      | none =>
        have ho : applyOutcome env m = none := by simp [applyOutcome, hx, hi]
        have ih := applyMigrations_batchTrace env now rest
          (insertExecutedMigration recs m.name now)
        simpa [applyMigrations, hx, hi] using BatchTrace.ok ho ih

lemma unapplyMigrations_batchTrace (env : Env) :
    ∀ (ms : List Migration) (recs : List ExecutedMigration),
      BatchTrace (unapplyOutcome env) ms (unapplyMigrations env ms recs).events
  | [], recs => BatchTrace.nil
  | m :: rest, recs => by
    cases hx : executeMigrationSQL env m.down with
    | some e =>
      have ho : unapplyOutcome env m = some e := by simp [unapplyOutcome, hx]
      simpa [unapplyMigrations, hx] using @BatchTrace.fail (unapplyOutcome env) m rest e ho
    | none =>
      cases hr : env.removeErr m.name with
      | some e =>
        have ho : unapplyOutcome env m = some e := by simp [unapplyOutcome, hx, hr]
        simpa [unapplyMigrations, hx, hr] using @BatchTrace.fail (unapplyOutcome env) m rest e ho
      | none =>
        have ho : unapplyOutcome env m = none := by simp [unapplyOutcome, hx, hr]
        have ih := unapplyMigrations_batchTrace env rest
          (removeExecutedMigration recs m.name)
        simpa [unapplyMigrations, hx, hr] using BatchTrace.ok ho ih

/-- Claim C8: in both `ApplyMigrations` and `UnapplyMigrations` the
migrations are processed in the given order, `onRunning` is invoked
before each migration's script is executed, and exactly one of
`onSuccess`/`onFailed` follows for it — `onFailed` exactly when the
script execution or the tracking-record mutation fails, `onSuccess`
otherwise (the shape captured by `BatchTrace`). -/
theorem batch_callback_contract (env : Env) (now : Nat) (ms : List Migration)
    (recs : List ExecutedMigration) :
    BatchTrace (applyOutcome env) ms (applyMigrations env now ms recs).events ∧
    BatchTrace (unapplyOutcome env) ms (unapplyMigrations env ms recs).events :=
  ⟨applyMigrations_batchTrace env now ms recs,
    unapplyMigrations_batchTrace env ms recs⟩

lemma applyMigrations_fail_split (env : Env) (now : Nat) (bad : Migration)
    (e : String) (hbad : applyOutcome env bad = some e) :
    ∀ (pre post : List Migration) (recs : List ExecutedMigration),
      (∀ m ∈ pre, applyOutcome env m = none) →
      (applyMigrations env now (pre ++ bad :: post) recs).records
          = recs ++ pre.map (fun m => ⟨m.name, now⟩) ∧
      (applyMigrations env now (pre ++ bad :: post) recs).events
          = pre.flatMap (fun m => [Event.running m, Event.success m])
              ++ [Event.running bad, Event.failed bad e] ∧
      ((applyMigrations env now (pre ++ bad :: post) recs).err
          = some ("failed to apply migration " ++ bad.name ++ ": " ++ e) ∨
       (applyMigrations env now (pre ++ bad :: post) recs).err
          = some ("failed to record migration " ++ bad.name ++ ": " ++ e))
  | [], post, recs, _ => by
    cases hx : executeMigrationSQL env bad.up with
    | some e' =>
      have he : e' = e := by simpa [applyOutcome, hx] using hbad
      subst he
      simp [applyMigrations, hx]
    | none =>
      have hi : env.insertErr bad.name = some e := by
        simpa [applyOutcome, hx] using hbad
      simp [applyMigrations, hx, hi]
  | m :: pre', post, recs, hpre => by
    have hm := applyOutcome_eq_none.mp (hpre m (List.mem_cons_self m _))
    have ih := applyMigrations_fail_split env now bad e hbad pre' post
      (insertExecutedMigration recs m.name now)
      (fun m' hm' => hpre m' (List.mem_cons_of_mem m hm'))
    simp only [List.cons_append, applyMigrations, hm.1, hm.2, List.append_eq]
    refine ⟨?_, ?_, ih.2.2⟩
    · rw [ih.1]
      simp [insertExecutedMigration, List.append_assoc]
    · rw [ih.2.1]
      simp

/-- Claim C1: when some migration in a batch fails (its up script or its
record insertion), `ApplyMigrations` stops there: the returned error
wraps that migration's name and the underlying cause, migrations before
it remain recorded (no batch-level rollback), and no migration after it
is attempted. -/
theorem applyMigrations_halts_on_first_failure (env : Env) (now : Nat)
    (recs : List ExecutedMigration) (pre : List Migration) (bad : Migration)
    (post : List Migration) (e : String)
    (hpre : ∀ m ∈ pre, applyOutcome env m = none)
    (hbad : applyOutcome env bad = some e) :
    (applyMigrations env now (pre ++ bad :: post) recs).records
        = recs ++ pre.map (fun m => ⟨m.name, now⟩) ∧
    (applyMigrations env now (pre ++ bad :: post) recs).events
        = pre.flatMap (fun m => [Event.running m, Event.success m])
            ++ [Event.running bad, Event.failed bad e] ∧
    ((applyMigrations env now (pre ++ bad :: post) recs).err
        = some ("failed to apply migration " ++ bad.name ++ ": " ++ e) ∨
     (applyMigrations env now (pre ++ bad :: post) recs).err
        = some ("failed to record migration " ++ bad.name ++ ": " ++ e)) ∧
    (∀ m ∈ post, m ∉ pre → m ≠ bad →
      Event.running m ∉ (applyMigrations env now (pre ++ bad :: post) recs).events) := by
  obtain ⟨h1, h2, h3⟩ := applyMigrations_fail_split env now bad e hbad pre post recs hpre
  refine ⟨h1, h2, h3, ?_⟩
  intro m _ hnotpre hnotbad hmem
  rw [h2] at hmem
  rcases List.mem_append.mp hmem with hin | hin
  · obtain ⟨m', hm', hev⟩ := List.mem_flatMap.mp hin
    simp only [List.mem_cons, List.not_mem_nil, or_false] at hev
    rcases hev with hev | hev
    · injection hev with h
      exact hnotpre (h ▸ hm')
    · injection hev
  · simp only [List.mem_cons, List.not_mem_nil, or_false] at hin
    rcases hin with hev | hev
    · injection hev with h
      exact hnotbad h
    · injection hev

theorem applyMigrations_halts_on_first_failure_witness :
    (applyMigrations ⟨fun s => if s = "BAD" then some ("boom") else none,
        fun _ => none, fun _ => none⟩ 9
      ([⟨"001_a", "ua", "da"⟩] ++ ⟨"002_b", "BAD", "db"⟩ :: [⟨"003_c", "uc", "dc"⟩])
      []).records
      = [] ++ [(⟨"001_a", "ua", "da"⟩ : Migration)].map
          (fun m => (⟨m.name, 9⟩ : ExecutedMigration)) ∧
    (applyMigrations ⟨fun s => if s = "BAD" then some ("boom") else none,
        fun _ => none, fun _ => none⟩ 9
      ([⟨"001_a", "ua", "da"⟩] ++ ⟨"002_b", "BAD", "db"⟩ :: [⟨"003_c", "uc", "dc"⟩])
      []).events
      = [(⟨"001_a", "ua", "da"⟩ : Migration)].flatMap
          (fun m => [Event.running m, Event.success m])
          ++ [Event.running ⟨"002_b", "BAD", "db"⟩,
            Event.failed ⟨"002_b", "BAD", "db"⟩ "boom"] ∧
    ((applyMigrations ⟨fun s => if s = "BAD" then some ("boom") else none,
        fun _ => none, fun _ => none⟩ 9
      ([⟨"001_a", "ua", "da"⟩] ++ ⟨"002_b", "BAD", "db"⟩ :: [⟨"003_c", "uc", "dc"⟩])
      []).err
      = some ("failed to apply migration " ++ (⟨"002_b", "BAD", "db"⟩ : Migration).name
          ++ ": " ++ "boom") ∨
     (applyMigrations ⟨fun s => if s = "BAD" then some ("boom") else none,
        fun _ => none, fun _ => none⟩ 9
      ([⟨"001_a", "ua", "da"⟩] ++ ⟨"002_b", "BAD", "db"⟩ :: [⟨"003_c", "uc", "dc"⟩])
      []).err
      = some ("failed to record migration " ++ (⟨"002_b", "BAD", "db"⟩ : Migration).name
          ++ ": " ++ "boom")) ∧
    (∀ m ∈ [(⟨"003_c", "uc", "dc"⟩ : Migration)],
      m ∉ [(⟨"001_a", "ua", "da"⟩ : Migration)] → m ≠ ⟨"002_b", "BAD", "db"⟩ →
      Event.running m ∉
        (applyMigrations ⟨fun s => if s = "BAD" then some ("boom") else none,
            fun _ => none, fun _ => none⟩ 9
          ([⟨"001_a", "ua", "da"⟩] ++ ⟨"002_b", "BAD", "db"⟩ :: [⟨"003_c", "uc", "dc"⟩])
          []).events) :=
  applyMigrations_halts_on_first_failure
    ⟨fun s => if s = "BAD" then some ("boom") else none, fun _ => none, fun _ => none⟩
    9 [] [⟨"001_a", "ua", "da"⟩] ⟨"002_b", "BAD", "db"⟩ [⟨"003_c", "uc", "dc"⟩]
    ("boom") (by decide) (by decide)

lemma foldl_filter_ne : ∀ (names l : List String),
    names.foldl (fun ts n => ts.filter (fun t => t ≠ n)) l
      = l.filter (fun t => decide (t ∉ names))
  | [], l => by simp
  | n :: ns, l => by
    rw [List.foldl_cons, foldl_filter_ne ns (l.filter fun t => t ≠ n),
      List.filter_filter]
    apply List.filter_congr
    intro t _
    by_cases h : t = n <;> by_cases h' : t ∈ ns <;> simp [h, h']

/-- Claim C7: `CleanDatabase` disables foreign-key enforcement as its
first statement and re-enables it as its last, whether or not any user
table existed; in between it drops exactly the user-defined tables,
leaving only the SQLite-internal ones, and the resulting database has
foreign-key enforcement on. -/
theorem cleanDatabase_fk_wrap_and_drops (db : Db) :
    (cleanDatabase db).1
      = SqlOp.setFk false :: SqlOp.queryTables ::
          ((db.tables.filter (fun t => ¬ isInternalTable t)).map SqlOp.dropTable
            ++ [SqlOp.setFk true]) ∧
    (cleanDatabase db).2.fkEnabled = true ∧
    (cleanDatabase db).2.tables = db.tables.filter (fun t => isInternalTable t) := by
  by_cases h : (db.tables.filter (fun t => ¬ isInternalTable t)).isEmpty
  · have hnil : db.tables.filter (fun t => ¬ isInternalTable t) = [] :=
      List.isEmpty_iff.mp h
    have hall : ∀ t ∈ db.tables, isInternalTable t = true := by
      intro t ht
      have := List.filter_eq_nil_iff.mp hnil t ht
      simpa using this
    have hfe : db.tables.filter (fun t => isInternalTable t) = db.tables :=
      List.filter_eq_self.mpr (fun t ht => by simpa using hall t ht)
    refine ⟨?_, ?_, ?_⟩
    · simp only [cleanDatabase]
      rw [if_pos h]
      simp [hnil]
      exact hall
    · simp only [cleanDatabase]
      rw [if_pos h]
    · simp only [cleanDatabase]
      rw [if_pos h]
      exact hfe.symm
  · have key : (db.tables.filter (fun t => ¬ isInternalTable t)).foldl
        (fun ts n => ts.filter (fun t => t ≠ n)) db.tables
        = db.tables.filter (fun t => isInternalTable t) := by
      rw [foldl_filter_ne]
      apply List.filter_congr
      intro t ht
      by_cases hI : isInternalTable t <;>
        simp [List.mem_filter, hI, ht]
    refine ⟨?_, ?_, ?_⟩
    · simp only [cleanDatabase]
      rw [if_neg h]
      rfl
    · simp only [cleanDatabase]
      rw [if_neg h]
    · simp only [cleanDatabase]
      rw [if_neg h]
      exact key

/-- Claim C2: `Migrate` computes the pending set as exactly the
registered migrations whose names are not among the executed records,
passes it to the backend sorted ascending by name, and makes no apply
request (returning nil) when the pending set is empty — in particular
with an empty registry. -/
theorem migrate_computes_pending (reg : List Migration) (E : List ExecutedMigration) :
    (∀ m, m ∈ pendingMigrations reg E ↔ (m ∈ reg ∧ ∀ r ∈ E, r.name ≠ m.name)) ∧
    (pendingMigrations reg E).Sorted nameLe ∧
    (pendingMigrations reg E = [] ↔ migrate reg E = none) ∧
    (∀ batch, migrate reg E = some batch → batch = pendingMigrations reg E) ∧
    migrate [] E = none := by
  refine ⟨?_, ?_, ?_, ?_, rfl⟩
  · intro m
    unfold pendingMigrations
    rw [List.mem_filter, (List.perm_insertionSort nameLe reg).mem_iff]
    simp [List.any_eq_true]
  · exact List.Pairwise.sublist (List.filter_sublist _)
      (List.sorted_insertionSort nameLe reg)
  · constructor
    · intro hnil
      simp [migrate, hnil]
    · intro hnone
      by_cases hp : (pendingMigrations reg E).isEmpty
      · exact List.isEmpty_iff.mp hp
      · simp [migrate, hp] at hnone
  · intro batch h
    unfold migrate at h
    by_cases hp : (pendingMigrations reg E).isEmpty <;> simp [hp] at h
    exact h.symm

/-- Claim C5: `Register` with a migration whose name is already present
returns an error whose message contains "registered more than once",
adds none of the migrations of the call (the registry is returned
unchanged), and the registry keeps exactly one entry for the duplicated
name. -/
theorem register_duplicate_atomic (reg batch : List Migration) (n : String)
    (m : Migration) (hn : (reg.filter (fun r => r.name == n)).length = 1)
    (hm : m ∈ batch) (hname : m.name = n) :
    (register reg batch).1 = reg ∧
    (∃ msg, (register reg batch).2 = some msg ∧
      ∃ s t, msg = s ++ "registered more than once" ++ t) ∧
    ((register reg batch).1.filter (fun r => r.name == n)).length = 1 := by
  have hex : ∃ r ∈ reg, (r.name == n) = true := by
    have hpos : 0 < (reg.filter (fun r => r.name == n)).length := by omega
    obtain ⟨r, hr⟩ := List.exists_mem_of_length_pos hpos
    exact ⟨r, (List.mem_filter.mp hr).1, (List.mem_filter.mp hr).2⟩
  obtain ⟨r, hrreg, hrn⟩ := hex
  have hpred : reg.any (fun r' => r'.name == m.name) = true := by
    simp only [List.any_eq_true]
    exact ⟨r, hrreg, by rw [hname]; exact hrn⟩
  have hfind : (batch.find? (fun m' => reg.any (fun r' => r'.name == m'.name))).isSome := by
    rw [List.find?_isSome]
    exact ⟨m, hm, hpred⟩
  obtain ⟨y, hy⟩ := Option.isSome_iff_exists.mp hfind
  refine ⟨by simp [register, hy], ?_, by simp [register, hy, hn]⟩
  refine ⟨"migration " ++ y.name ++ " is registered more than once",
    by simp [register, hy], "migration " ++ y.name ++ " is ", "", ?_⟩
  symm
  rw [String.append_empty, String.append_assoc]
  rfl

theorem register_duplicate_atomic_witness :
    (register [⟨"001_a", "u", "d"⟩] [⟨"001_a", "u2", "d2"⟩]).1 = [⟨"001_a", "u", "d"⟩] ∧
    (∃ msg, (register [⟨"001_a", "u", "d"⟩] [⟨"001_a", "u2", "d2"⟩]).2 = some msg ∧
      ∃ s t, msg = s ++ "registered more than once" ++ t) ∧
    ((register [⟨"001_a", "u", "d"⟩] [⟨"001_a", "u2", "d2"⟩]).1.filter
      (fun r => r.name == "001_a")).length = 1 :=
  register_duplicate_atomic [⟨"001_a", "u", "d"⟩] [⟨"001_a", "u2", "d2"⟩]
    "001_a" ⟨"001_a", "u2", "d2"⟩ (by decide) (by decide) rfl

lemma getExecuted_desc_sorted (E : List ExecutedMigration) :
    (getExecutedMigrations E true).Sorted execGe := by
  simpa [getExecutedMigrations] using List.sorted_insertionSort execGe E

lemma getExecuted_length (E : List ExecutedMigration) (b : Bool) :
    (getExecutedMigrations E b).length = E.length := by
  cases b <;> simp [getExecutedMigrations, (List.perm_insertionSort execLe E).length_eq,
    (List.perm_insertionSort execGe E).length_eq]

lemma getExecuted_mem {E : List ExecutedMigration} {b : Bool} {r : ExecutedMigration} :
    r ∈ getExecutedMigrations E b ↔ r ∈ E := by
  cases b <;> simp [getExecutedMigrations, (List.perm_insertionSort execLe E).mem_iff,
    (List.perm_insertionSort execGe E).mem_iff]

lemma resolveMigrations_of_registered (reg : List Migration) :
    ∀ (names : List String), (∀ n ∈ names, ∃ m ∈ reg, m.name = n) →
      ∃ batch, resolveMigrations reg names = some batch ∧
        batch.map (fun m => m.name) = names
  | [], _ => ⟨[], rfl, rfl⟩
  | n :: ns, h => by
    obtain ⟨m, hmreg, hmn⟩ := h n (List.mem_cons_self n ns)
    have hs : (lookupMigration reg n).isSome := by
      unfold lookupMigration
      rw [List.find?_isSome]
      exact ⟨m, hmreg, by simp [hmn]⟩
    obtain ⟨y, hy⟩ := Option.isSome_iff_exists.mp hs
    have hyn : y.name = n := by
      have hy' : reg.find? (fun m' => m'.name == n) = some y := hy
      simpa using List.find?_some hy'
    obtain ⟨batch, hb, hbn⟩ := resolveMigrations_of_registered reg ns
      (fun n' hn' => h n' (List.mem_cons_of_mem n hn'))
    refine ⟨y :: batch, ?_, ?_⟩
    · simp [resolveMigrations, hy, hb]
    · simp [hbn, hyn]

/-- Claim C3: `Reset` fetches the executed migrations descending,
unapplies all of them in that order (skipping the unapply request when
none are executed), and then re-runs `Migrate` — also when nothing is
executed.  Every executed name is assumed registered, as a missing down
script is a fatal lookup error. -/
theorem reset_unapplies_all_then_migrates (reg : List Migration)
    (E : List ExecutedMigration)
    (hreg : ∀ r ∈ E, ∃ m ∈ reg, m.name = r.name) :
    (E = [] → reset reg E = Except.ok [EngineStep.runMigrate]) ∧
    (E ≠ [] → ∃ batch,
      reset reg E = Except.ok [EngineStep.unapplyBatch batch, EngineStep.runMigrate] ∧
      batch.map (fun m => m.name)
        = (getExecutedMigrations E true).map (fun r => r.name) ∧
      (getExecutedMigrations E true).Sorted execGe) := by
  constructor
  · intro hE
    subst hE
    rfl
  · intro hne
    have hnames : ∀ n ∈ (getExecutedMigrations E true).map (fun r => r.name),
        ∃ m ∈ reg, m.name = n := by
      intro n hn
      obtain ⟨r, hr, hrn⟩ := List.mem_map.mp hn
      obtain ⟨m', hmreg, hmn⟩ := hreg r (getExecuted_mem.mp hr)
      exact ⟨m', hmreg, by rw [hmn, hrn]⟩
    obtain ⟨batch, hb, hbn⟩ := resolveMigrations_of_registered reg _ hnames
    have hgne : getExecutedMigrations E true ≠ [] := by
      intro h0
      apply hne
      have hl := getExecuted_length E true
      rw [h0] at hl
      exact List.length_eq_zero.mp hl.symm
    have hne' : ¬ (((getExecutedMigrations E true).map (fun r => r.name)).isEmpty = true) := by
      simp [List.isEmpty_iff, hgne]
    refine ⟨batch, ?_, hbn, getExecuted_desc_sorted E⟩
    simp only [reset]
    rw [if_neg hne']
    simp only [hb]

/-- Claim C4: `Rollback` with `steps ≥ 1` unapplies exactly
`min steps n` of the `n` executed migrations, the most recently applied
(largest names) first; overshooting `steps` past `n` unapplies all of
them and is not an error.  Every executed name is assumed registered, as
a missing down script is a fatal lookup error. -/
theorem rollback_clamps_steps (reg : List Migration) (E : List ExecutedMigration)
    (steps : Nat) (h1 : 1 ≤ steps)
    (hreg : ∀ r ∈ E, ∃ m ∈ reg, m.name = r.name) :
    ∃ batch, rollback reg E steps = Except.ok batch ∧
      batch.length = min steps E.length ∧
      batch.map (fun m => m.name)
        = ((getExecutedMigrations E true).map (fun r => r.name)).take steps ∧
      (E.length ≤ steps →
        batch.map (fun m => m.name)
          = (getExecutedMigrations E true).map (fun r => r.name)) ∧
      (getExecutedMigrations E true).Sorted execGe := by
  have hnames : ∀ n ∈ ((getExecutedMigrations E true).take steps).map (fun r => r.name),
      ∃ m ∈ reg, m.name = n := by
    intro n hn
    obtain ⟨r, hr, hrn⟩ := List.mem_map.mp hn
    have hrE : r ∈ E := getExecuted_mem.mp (List.mem_of_mem_take hr)
    obtain ⟨m', hmreg, hmn⟩ := hreg r hrE
    exact ⟨m', hmreg, by rw [hmn, hrn]⟩
  obtain ⟨batch, hb, hbn⟩ := resolveMigrations_of_registered reg _ hnames
  have hmap : batch.map (fun m => m.name)
      = ((getExecutedMigrations E true).map (fun r => r.name)).take steps := by
    rw [hbn, List.map_take]
  refine ⟨batch, ?_, ?_, hmap, ?_, getExecuted_desc_sorted E⟩
  · simp only [rollback]
    rw [if_neg (by omega)]
    simp only [hb]
  · have hlen := congrArg List.length hmap
    simpa [List.length_take, getExecuted_length] using hlen
  · intro hle
    rw [hmap]
    apply List.take_of_length_le
    simpa [getExecuted_length] using hle

theorem reset_unapplies_all_then_migrates_witness :
    (([⟨"001_a", 1⟩, ⟨"002_b", 2⟩] : List ExecutedMigration) = [] →
      reset [⟨"001_a", "ua", "da"⟩, ⟨"002_b", "ub", "db"⟩] [⟨"001_a", 1⟩, ⟨"002_b", 2⟩]
        = Except.ok [EngineStep.runMigrate]) ∧
    (([⟨"001_a", 1⟩, ⟨"002_b", 2⟩] : List ExecutedMigration) ≠ [] → ∃ batch,
      reset [⟨"001_a", "ua", "da"⟩, ⟨"002_b", "ub", "db"⟩] [⟨"001_a", 1⟩, ⟨"002_b", 2⟩]
        = Except.ok [EngineStep.unapplyBatch batch, EngineStep.runMigrate] ∧
      batch.map (fun m => m.name)
        = (getExecutedMigrations [⟨"001_a", 1⟩, ⟨"002_b", 2⟩] true).map (fun r => r.name) ∧
      (getExecutedMigrations [⟨"001_a", 1⟩, ⟨"002_b", 2⟩] true).Sorted execGe) :=
  reset_unapplies_all_then_migrates
    [⟨"001_a", "ua", "da"⟩, ⟨"002_b", "ub", "db"⟩] [⟨"001_a", 1⟩, ⟨"002_b", 2⟩]
    (by decide)

theorem rollback_clamps_steps_witness :
    ∃ batch, rollback [⟨"001_a", "ua", "da"⟩, ⟨"002_b", "ub", "db"⟩]
        [⟨"001_a", 1⟩, ⟨"002_b", 2⟩] 5 = Except.ok batch ∧
      batch.length = min 5 ([⟨"001_a", 1⟩, ⟨"002_b", 2⟩] : List ExecutedMigration).length ∧
      batch.map (fun m => m.name)
        = ((getExecutedMigrations [⟨"001_a", 1⟩, ⟨"002_b", 2⟩] true).map
            (fun r => r.name)).take 5 ∧
      (([⟨"001_a", 1⟩, ⟨"002_b", 2⟩] : List ExecutedMigration).length ≤ 5 →
        batch.map (fun m => m.name)
          = (getExecutedMigrations [⟨"001_a", 1⟩, ⟨"002_b", 2⟩] true).map
              (fun r => r.name)) ∧
      (getExecutedMigrations [⟨"001_a", 1⟩, ⟨"002_b", 2⟩] true).Sorted execGe :=
  rollback_clamps_steps [⟨"001_a", "ua", "da"⟩, ⟨"002_b", "ub", "db"⟩]
    [⟨"001_a", 1⟩, ⟨"002_b", 2⟩] 5 (by decide) (by decide)

end GoMig
